import Mathlib

set_option maxRecDepth 100000

/-!
Verification of the nonce_mining repository's round-based nonce-commitment
protocol: a shallow embedding of `src/nonce_mining/utils/hashing.py`,
`src/neurons/miner.py` and `src/neurons/validator.py`, with theorems about
the miner search engine, the validator round controller and the shared
hash commitment.

Machine words are modelled as `Nat` reduced modulo `2 ^ 32` where the
underlying operations wrap; byte strings are `List Nat` with every entry
below 256; randomness (`random.randint`) is passed in explicitly as an
injected draw stream, following the dependency-injection reading of the
design notes.
-/

/-! ### SHA-256 over `Nat` (the `hashlib.sha256` collaborator)

A direct executable transcription of FIPS 180-4 SHA-256, used by
`gen_hash`.  Words are `Nat` values kept below `2 ^ 32` by `w32`. -/

/-- Reduce a word modulo `2 ^ 32`. -/
def w32 (n : Nat) : Nat := n % 4294967296

/-- Rotate a 32-bit word right by `n` bits. -/
def rotr32 (n x : Nat) : Nat := w32 ((x >>> n) ||| (x <<< (32 - n)))

/-- SHA-256 `Ch` function (bitwise choose); the complement is taken
against the 32-bit all-ones mask. -/
def chooseFn (x y z : Nat) : Nat := (x &&& y) ^^^ ((x ^^^ 4294967295) &&& z)

/-- SHA-256 `Maj` function (bitwise majority). -/
def majorityFn (x y z : Nat) : Nat := (x &&& y) ^^^ (x &&& z) ^^^ (y &&& z)

/-- SHA-256 big sigma 0. -/
def bigSigma0 (x : Nat) : Nat := rotr32 2 x ^^^ rotr32 13 x ^^^ rotr32 22 x

/-- SHA-256 big sigma 1. -/
def bigSigma1 (x : Nat) : Nat := rotr32 6 x ^^^ rotr32 11 x ^^^ rotr32 25 x

/-- SHA-256 small sigma 0. -/
def smallSigma0 (x : Nat) : Nat := rotr32 7 x ^^^ rotr32 18 x ^^^ (x >>> 3)

/-- SHA-256 small sigma 1. -/
def smallSigma1 (x : Nat) : Nat := rotr32 17 x ^^^ rotr32 19 x ^^^ (x >>> 10)

/-- The eight-word SHA-256 working state. -/
structure Hs where
  a : Nat
  b : Nat
  c : Nat
  d : Nat
  e : Nat
  f : Nat
  g : Nat
  h : Nat
deriving DecidableEq

/-- SHA-256 round constants (FIPS 180-4, in decimal). -/
def Kconst : List Nat :=
  [1116352408, 1899447441, 3049323471, 3921009573, 961987163,
   1508970993, 2453635748, 2870763221, 3624381080, 310598401,
   607225278, 1426881987, 1925078388, 2162078206, 2614888103,
   3248222580, 3835390401, 4022224774, 264347078, 604807628,
   770255983, 1249150122, 1555081692, 1996064986, 2554220882,
   2821834349, 2952996808, 3210313671, 3336571891, 3584528711,
   113926993, 338241895, 666307205, 773529912, 1294757372,
   1396182291, 1695183700, 1986661051, 2177026350, 2456956037,
   2730485921, 2820302411, 3259730800, 3345764771, 3516065817,
   3600352804, 4094571909, 275423344, 430227734, 506948616,
   659060556, 883997877, 958139571, 1322822218, 1537002063,
   1747873779, 1955562222, 2024104815, 2227730452, 2361852424,
   2428436474, 2756734187, 3204031479, 3329325298]

/-- SHA-256 initial hash value (FIPS 180-4, in decimal). -/
def initHs : Hs :=
  ⟨1779033703, 3144134277, 1013904242, 2773480762,
   1359893119, 2600822924, 528734635, 1541459225⟩

/-- One SHA-256 compression round; `kw` pairs the round constant with the
scheduled message word. -/
def compressStep (s : Hs) (kw : Nat × Nat) : Hs :=
  let t1 := w32 (s.h + bigSigma1 s.e + chooseFn s.e s.f s.g + kw.1 + kw.2)
  let t2 := w32 (bigSigma0 s.a + majorityFn s.a s.b s.c)
  ⟨w32 (t1 + t2), s.a, s.b, s.c, w32 (s.d + t1), s.e, s.f, s.g⟩

/-- Extend the message schedule; `ws` holds the words already produced,
most recent first, and `n` counts the words still to produce. -/
def extendSchedule : Nat → List Nat → List Nat
  | 0, ws => ws.reverse
  | n + 1, ws =>
      let w := w32 (smallSigma1 (ws.getD 1 0) + ws.getD 6 0 + smallSigma0 (ws.getD 14 0) + ws.getD 15 0)
      extendSchedule n (w :: ws)

/-- Group consecutive big-endian byte quadruples into 32-bit words. -/
def bytesToWords : List Nat → List Nat
  | b0 :: b1 :: b2 :: b3 :: rest =>
      (b0 * 16777216 + b1 * 65536 + b2 * 256 + b3) :: bytesToWords rest
  | _ => []

/-- Serialize a 32-bit word as four big-endian bytes. -/
def wordBytes (w : Nat) : List Nat :=
  [(w >>> 24) &&& 255, (w >>> 16) &&& 255, (w >>> 8) &&& 255, w &&& 255]

/-- Serialize the final SHA-256 state as its 32-byte digest. -/
def digestBytes (s : Hs) : List Nat :=
  wordBytes s.a ++ wordBytes s.b ++ wordBytes s.c ++ wordBytes s.d ++
  wordBytes s.e ++ wordBytes s.f ++ wordBytes s.g ++ wordBytes s.h

/-- Process one 64-byte block. -/
def processBlock (H : Hs) (block : List Nat) : Hs :=
  let W := extendSchedule 48 (bytesToWords block).reverse
  let s := (Kconst.zip W).foldl compressStep H
  ⟨w32 (H.a + s.a), w32 (H.b + s.b), w32 (H.c + s.c), w32 (H.d + s.d),
   w32 (H.e + s.e), w32 (H.f + s.f), w32 (H.g + s.g), w32 (H.h + s.h)⟩

/-- Serialize a length as eight big-endian bytes. -/
def beBytes8 (n : Nat) : List Nat :=
  [(n >>> 56) &&& 255, (n >>> 48) &&& 255, (n >>> 40) &&& 255, (n >>> 32) &&& 255,
   (n >>> 24) &&& 255, (n >>> 16) &&& 255, (n >>> 8) &&& 255, n &&& 255]

/-- SHA-256 padding: append `0x80`, zeros to 56 mod 64, then the bit
length as eight big-endian bytes. -/
def padMsg (msg : List Nat) : List Nat :=
  let len := msg.length
  let zeros := (120 - ((len + 1) % 64)) % 64
  msg ++ 128 :: List.replicate zeros 0 ++ beBytes8 (8 * len)

/-- Split a byte list into 64-byte chunks; `acc` holds the bytes of the
current chunk in reverse. -/
def chunks64 : List Nat → List Nat → List (List Nat)
  | [], acc => if acc.isEmpty then [] else [acc.reverse]
  | b :: rest, acc =>
      if acc.length = 63 then (b :: acc).reverse :: chunks64 rest []
      else chunks64 rest (b :: acc)

/-- Split a byte list into 64-byte chunks. -/
def chunks (l : List Nat) : List (List Nat) := chunks64 l []

/-- SHA-256 of a byte list, as its 32-byte digest. -/
def sha256 (msg : List Nat) : List Nat :=
  digestBytes ((chunks (padMsg msg)).foldl processBlock initHs)

/-! ### Byte/hex/decimal encodings -/

/-- UTF-8 encoding of one code point (the `str.encode()` collaborator). -/
def utf8Bytes (c : Nat) : List Nat :=
  if c < 128 then [c]
  else if c < 2048 then [192 ||| (c >>> 6), 128 ||| (c &&& 63)]
  else if c < 65536 then
    [224 ||| (c >>> 12), 128 ||| ((c >>> 6) &&& 63), 128 ||| (c &&& 63)]
  else
    [240 ||| (c >>> 18), 128 ||| ((c >>> 12) &&& 63),
     128 ||| ((c >>> 6) &&& 63), 128 ||| (c &&& 63)]

/-- UTF-8 bytes of a string (`str.encode()`). -/
def strBytes (s : String) : List Nat := (s.data.map (fun c => utf8Bytes c.toNat)).flatten

/-- Lowercase hexadecimal digit for a nibble. -/
def hexDigitChar (d : Nat) : Char :=
  if d < 10 then Char.ofNat (48 + d) else Char.ofNat (87 + d)

/-- Two lowercase hex digits of one byte (`bytes.hex()` per byte). -/
def byteHexChars (b : Nat) : List Char := [hexDigitChar (b / 16), hexDigitChar (b % 16)]

/-- Lowercase hex rendering of a byte list (`bytes.hex()`). -/
def bytesToHex (bs : List Nat) : String := ⟨(bs.map byteHexChars).flatten⟩

/-- Numeric value of a lowercase hex digit character. -/
def hexCharVal (c : Char) : Nat := if c.toNat ≤ 57 then c.toNat - 48 else c.toNat - 87

/-- Base-16 value of a lowercase hex string: models Python `int(s, 16)`
on the strings produced by `bytes.hex()`. -/
def intOfHex (s : String) : Nat := s.data.foldl (fun a c => 16 * a + hexCharVal c) 0

/-- Big-endian integer interpretation of a byte list. -/
def beBytesToNat (bs : List Nat) : Nat := bs.foldl (fun a b => 256 * a + b) 0

/-- Decimal digit character. -/
def digitChar (d : Nat) : Char := Char.ofNat (48 + d)

/-- Decimal digits of `n`, accumulated; the first argument is fuel,
`n + 1` always suffices. -/
def decimalChars : Nat → Nat → List Char → List Char
  | 0, _, acc => acc
  | fuel + 1, n, acc =>
      if n < 10 then digitChar n :: acc
      else decimalChars fuel (n / 10) (digitChar (n % 10) :: acc)

/-- Decimal string of a natural number: models Python `str(n)` for
non-negative `n`. -/
def decimalStr (n : Nat) : String := ⟨decimalChars (n + 1) n []⟩

/-! ### `src/nonce_mining/utils/hashing.py` -/

/-- `gen_nonce` from `hashing.py`: `str(random.randint(0, 10))`.  The
draw of `random.randint(0, 10)` is injected as the argument `r`; its
contract is `r ≤ 10` (Python's `randint` is inclusive at both ends). -/
def gen_nonce (r : Nat) : String := decimalStr r

/-- `gen_hash` from `hashing.py`:
`sha256(nonce.encode()).digest().hex()`. -/
def gen_hash (nonce : String) : String := bytesToHex (sha256 (strBytes nonce))

example : gen_hash "abc" =
    "ba7816bf8f01cfea414140de5dae2223b00361a396177a9cb410ff61f20015ad" := by decide

example : gen_hash "7" =
    "7902699be42c8a8e46fbbb4501726517e86b22c56a189f7625a6da49081b2451" := by decide

/-! ### `src/neurons/miner.py` — the miner search engine

The `Dummy` synapse of the protocol carries a `block_id` (the round
identifier) and a `hash` field the miner fills in; the miner's per-round
state is the fields set up in `Miner.__init__`.  The successive return
values of `random.randint(0, 10)` inside `gen_nonce` are injected as a
stream `rand : Nat → Nat`, consumed left to right. -/

/-- The protocol's `Dummy` synapse: round identifier and the guessed
digest value (`None` until a miner fills it in). -/
structure Synapse where
  block_id : Int
  hash : Option Nat
deriving DecidableEq

/-- Per-miner state: `self.nonces`, `self.last_block_id`,
`self.extra_attempts`, `self.still_trying` from `Miner.__init__`.  The
Python `set[str]` is modelled as the list of its elements (insertion
happens only after a membership check, so the list stays duplicate
free). -/
structure MinerState where
  nonces : List String
  last_block_id : Option Int
  extra_attempts : Nat
  still_trying : Bool
deriving DecidableEq

/-- The miner state built by `Miner.__init__`. -/
def MinerState.init : MinerState := ⟨[], none, 10, true⟩

/-- Lines 59–62 of `miner.py`: on a round identifier differing from the
last-seen one, record it, resume searching and clear the tried set. -/
def resetIfNewBlock (st : MinerState) (blockId : Int) : MinerState :=
  if some blockId ≠ st.last_block_id then
    { st with last_block_id := some blockId, still_trying := true, nonces := [] }
  else st

/-- Lines 69–77 of `miner.py`: the duplicate-redraw loop.  `nonce` is the
current draw, `i` indexes the next draw of the stream, and `remaining`
counts how many further redraws the `attempts` counter still allows
(initially `len(self.nonces) + self.extra_attempts`): the loop body
redraws, increments `attempts` and exits with no guess once
`attempts > len(self.nonces) + self.extra_attempts`, i.e. exactly when a
duplicate is seen with no redraw allowance left. -/
def drawLoop (nonces : List String) (draws : Nat → String) :
    String → Nat → Nat → Option String
  | nonce, i, remaining =>
    if nonce ∈ nonces then
      match remaining with
      | 0 => none
      | r + 1 => drawLoop nonces draws (draws i) (i + 1) r
    else some nonce

/-- `Miner.forward` from `miner.py`, lines 58–83: reset on a new round
identifier, return unchanged when no longer trying, otherwise draw a
fresh nonce (giving up after too many consecutive duplicates), record it
and answer with `int(gen_hash(nonce), 16)`. -/
def Miner.forward (st : MinerState) (rand : Nat → Nat) (synapse : Synapse) :
    MinerState × Synapse :=
  let st := resetIfNewBlock st synapse.block_id
  if st.still_trying = false then (st, synapse)
  else
    let draws := fun i => gen_nonce (rand i)
    match drawLoop st.nonces draws (draws 0) 1 (st.nonces.length + st.extra_attempts) with
    | none => ({ st with still_trying := false }, synapse)
    | some nonce =>
        ({ st with nonces := nonce :: st.nonces },
         { synapse with hash := some (intOfHex (gen_hash nonce)) })

/-! ### `src/neurons/miner.py` — the blacklist check -/

/-- The two blacklist configuration flags read by `Miner.blacklist`. -/
structure BlacklistConfig where
  allow_non_registered : Bool
  force_validator_permit : Bool
deriving DecidableEq

/-- Python `list.index`: index of the first occurrence, or no result
where Python raises `ValueError`. -/
def pyIndex : List String → String → Option Nat
  | [], _ => none
  | y :: ys, x => if y = x then some 0 else (pyIndex ys x).map (· + 1)

/-- `Miner.blacklist` from `miner.py`, lines 107–129, over the data it
reads: the registry's hotkey list and validator-permit list, the config
flags and the caller's hotkey.  `Except.error` models an uncaught Python
exception; `Except.ok (b, reason)` models the returned pair.  Note that
line 107 computes `self.metagraph.hotkeys.index(...)` before the
membership test on line 110. -/
def Miner.blacklist (hotkeys : List String) (validator_permit : List Bool)
    (cfg : BlacklistConfig) (hotkey : String) : Except String (Bool × String) :=
  match pyIndex hotkeys hotkey with
  | none => Except.error "ValueError: hotkey is not in list"
  | some uid =>
    if cfg.allow_non_registered = false ∧ hotkey ∉ hotkeys then
      Except.ok (true, "Unrecognized hotkey")
    else if cfg.force_validator_permit = true then
      match validator_permit.get? uid with
      | none => Except.error "IndexError: list index out of range"
      | some p =>
          if p = false then Except.ok (true, "Non-validator hotkey")
          else Except.ok (false, "Hotkey recognized!")
    else Except.ok (false, "Hotkey recognized!")

/-! ### `src/neurons/validator.py` — the validator round controller -/

/-- Per-validator state: `self.nonce_not_found`, `self.nonce` (the target
digest value), `self.last_block` and `self.step` from
`Validator.__init__`. -/
structure ValidatorState where
  nonce_not_found : Bool
  nonce : Nat
  last_block : Option Int
  step : Nat
deriving DecidableEq

/-- Lines 227–232 of `validator.py`: on a block differing from the
last-seen one, sample a fresh secret via `gen_nonce` (its `randint` draw
injected as `r`), reset the found flag and recompute the target
`int(gen_hash(nonce), 16)`. -/
def commitIfNewBlock (st : ValidatorState) (block : Int) (r : Nat) : ValidatorState :=
  if st.last_block ≠ some block then
    { st with nonce_not_found := true,
              nonce := intOfHex (gen_hash (gen_nonce r)),
              last_block := some block }
  else st

/-- `Validator.forward` from `validator.py`, lines 216–240: commit on a
new block, then query the miners (the dispatch delegated to
`nonce_mining/validator/forward.py`) only while the nonce has not been
found.  The returned `Bool` records whether the querying step
`await forward(self)` ran. -/
def Validator.forward (st : ValidatorState) (block : Int) (r : Nat) :
    ValidatorState × Bool :=
  let st := commitIfNewBlock st block r
  if st.nonce_not_found = true then ({ st with step := st.step + 1 }, true)
  else (st, false)

/-! ### Helper lemmas -/

/-- The sixteen characters a lowercase hex rendering may contain: the
decimal digits followed by the letters a through f. -/
def hexChars : List Char :=
  (List.range 10).map (fun d => Char.ofNat (48 + d)) ++
  (List.range 6).map (fun d => Char.ofNat (97 + d))

lemma hexCharVal_hexDigitChar (d : Nat) (hd : d < 16) : hexCharVal (hexDigitChar d) = d := by
  interval_cases d <;> decide

lemma hexDigitChar_mem_hexChars (d : Nat) (hd : d < 16) : hexDigitChar d ∈ hexChars := by
  interval_cases d <;> decide

lemma mem_wordBytes_lt (w : Nat) : ∀ b ∈ wordBytes w, b < 256 := by
  intro b hb
  simp only [wordBytes, List.mem_cons, List.not_mem_nil, or_false] at hb
  have h24 : (w >>> 24) &&& 255 ≤ 255 := Nat.and_le_right
  have h16 : (w >>> 16) &&& 255 ≤ 255 := Nat.and_le_right
  have h8 : (w >>> 8) &&& 255 ≤ 255 := Nat.and_le_right
  have h0 : w &&& 255 ≤ 255 := Nat.and_le_right
  rcases hb with rfl | rfl | rfl | rfl <;> omega

lemma sha256_mem_lt (msg : List Nat) : ∀ b ∈ sha256 msg, b < 256 := by
  intro b hb
  simp only [sha256, digestBytes, List.mem_append] at hb
  rcases hb with ((((((h | h) | h) | h) | h) | h) | h) | h <;>
    exact mem_wordBytes_lt _ _ h

lemma sha256_length (msg : List Nat) : (sha256 msg).length = 32 := by
  simp [sha256, digestBytes, wordBytes]

lemma hexfold (bs : List Nat) : ∀ a : Nat, (∀ b ∈ bs, b < 256) →
    ((bs.map byteHexChars).flatten).foldl (fun x c => 16 * x + hexCharVal c) a
      = bs.foldl (fun x b => 256 * x + b) a := by
  induction bs with
  | nil => intro a _; rfl
  | cons b bs ih =>
      intro a hb
      have hb0 : b < 256 := hb b (List.mem_cons_self b bs)
      simp only [List.map_cons, List.flatten_cons, List.foldl_append, List.foldl_cons,
        List.foldl_nil, byteHexChars]
      rw [hexCharVal_hexDigitChar _ (by omega), hexCharVal_hexDigitChar _ (by omega),
        ih _ (fun x hx => hb x (List.mem_cons_of_mem _ hx))]
      congr 1
      omega

lemma intOfHex_bytesToHex (bs : List Nat) (hb : ∀ b ∈ bs, b < 256) :
    intOfHex (bytesToHex bs) = beBytesToNat bs := hexfold bs 0 hb

lemma bytesToHex_length (bs : List Nat) : (bytesToHex bs).length = 2 * bs.length := by
  show ((bs.map byteHexChars).flatten).length = 2 * bs.length
  induction bs with
  | nil => rfl
  | cons b bs ih =>
      simp only [List.map_cons, List.flatten_cons, List.length_append, ih, byteHexChars,
        List.length_cons, List.length_nil]
      omega

lemma mem_bytesToHex_hexChars (bs : List Nat) (hb : ∀ b ∈ bs, b < 256) :
    ∀ d ∈ (bytesToHex bs).data, d ∈ hexChars := by
  intro d hd
  have hd' : d ∈ (bs.map byteHexChars).flatten := hd
  rcases List.mem_flatten.mp hd' with ⟨l, hl, hdl⟩
  rcases List.mem_map.mp hl with ⟨b, hbmem, rfl⟩
  have hb0 : b < 256 := hb b hbmem
  simp only [byteHexChars, List.mem_cons, List.not_mem_nil, or_false] at hdl
  rcases hdl with rfl | rfl
  · exact hexDigitChar_mem_hexChars _ (by omega)
  · exact hexDigitChar_mem_hexChars _ (by omega)

lemma resetIfNewBlock_nonces (st : MinerState) (b : Int) :
    (resetIfNewBlock st b).nonces = st.nonces ∨ (resetIfNewBlock st b).nonces = [] := by
  unfold resetIfNewBlock
  split
  · right; rfl
  · left; rfl

lemma resetIfNewBlock_of_same (st : MinerState) (b : Int)
    (h : st.last_block_id = some b) : resetIfNewBlock st b = st := by
  unfold resetIfNewBlock
  simp [h]

/-- If every draw the loop inspects is already tried, the loop gives up. -/
lemma drawLoop_none_of_mem (nonces : List String) (draws : Nat → String) :
    ∀ L i nonce, nonce ∈ nonces → (∀ k, k < L → draws (i + k) ∈ nonces) →
      drawLoop nonces draws nonce i L = none := by
  intro L
  induction L with
  | zero =>
      intro i nonce hmem _
      simp [drawLoop, hmem]
  | succ L ih =>
      intro i nonce hmem hall
      rw [drawLoop]
      simp only [hmem, if_true]
      exact ih (i + 1) (draws i)
        (by simpa using hall 0 (Nat.succ_pos L))
        (fun k hk => by
          have h := hall (k + 1) (by omega)
          rwa [show i + (k + 1) = i + 1 + k by omega] at h)

/-- A nonce accepted by the loop was not in the tried set. -/
lemma drawLoop_some_not_mem (nonces : List String) (draws : Nat → String) :
    ∀ L i nonce n, drawLoop nonces draws nonce i L = some n → n ∉ nonces := by
  intro L
  induction L with
  | zero =>
      intro i nonce n h
      by_cases hm : nonce ∈ nonces
      · simp [drawLoop, hm] at h
      · simp [drawLoop, hm] at h
        subst h
        exact hm
  | succ L ih =>
      intro i nonce n h
      by_cases hm : nonce ∈ nonces
      · rw [drawLoop] at h
        simp only [hm, if_true] at h
        exact ih _ _ _ h
      · simp [drawLoop, hm] at h
        subst h
        exact hm

/-- A draw not yet tried is accepted immediately. -/
lemma drawLoop_fresh (nonces : List String) (draws : Nat → String) (nonce : String)
    (i L : Nat) (h : nonce ∉ nonces) : drawLoop nonces draws nonce i L = some nonce := by
  rw [drawLoop.eq_def]
  simp [h]

/-- Python `list.index` raises exactly when the element is absent. -/
lemma pyIndex_eq_none_of_not_mem (l : List String) (x : String) (h : x ∉ l) :
    pyIndex l x = none := by
  induction l with
  | nil => rfl
  | cons y ys ih =>
      simp only [List.mem_cons, not_or] at h
      have hy : ¬ y = x := fun hh => h.1 hh.symm
      simp [pyIndex, hy, ih h.2]

/-! ### Claim theorems -/

/-- C1: For every miner search step executed while still searching a
round, the duplicate-redraw loop terminates (witnessed by `drawLoop`
being a total function); if the number of consecutive duplicate draws
exceeds `len(triedSet) + EXTRA_ATTEMPTS`, the miner transitions to
`Exhausted` (`still_trying = false`) and returns the request unmodified;
thereafter it returns no further new guesses for that round — every
subsequent call with the same round id returns the request unmodified
and leaves the state unchanged — until the round id changes. -/
theorem miner_exhaustion_policy (st : MinerState) (rand : Nat → Nat) (syn : Synapse)
    (hblock : st.last_block_id = some syn.block_id) :
    (st.still_trying = true →
      (∀ j, j ≤ st.nonces.length + st.extra_attempts → gen_nonce (rand j) ∈ st.nonces) →
      Miner.forward st rand syn = ({ st with still_trying := false }, syn)) ∧
    (st.still_trying = false →
      ∀ (rand' : Nat → Nat) (syn' : Synapse), syn'.block_id = syn.block_id →
        Miner.forward st rand' syn' = (st, syn')) := by
  constructor
  · intro htry hall
    have hreset := resetIfNewBlock_of_same st syn.block_id hblock
    have hnone : drawLoop st.nonces (fun i => gen_nonce (rand i)) (gen_nonce (rand 0)) 1
        (st.nonces.length + st.extra_attempts) = none := by
      refine drawLoop_none_of_mem _ _ _ _ _ (hall 0 (Nat.zero_le _)) ?_
      intro k hk
      exact hall (1 + k) (by omega)
    simp [Miner.forward, hreset, htry, hnone]
  · intro hstop rand' syn' hb
    have hreset := resetIfNewBlock_of_same st syn'.block_id (by rw [hb]; exact hblock)
    simp [Miner.forward, hreset, hstop]

theorem miner_exhaustion_policy_witness :
    Miner.forward ⟨["4"], some 5, 2, true⟩ (fun _ => 4) ⟨5, none⟩
      = (⟨["4"], some 5, 2, false⟩, ⟨5, none⟩) ∧
    Miner.forward ⟨["4"], some 5, 2, false⟩ (fun _ => 9) ⟨5, none⟩
      = (⟨["4"], some 5, 2, false⟩, ⟨5, none⟩) := by
  constructor
  · exact (miner_exhaustion_policy ⟨["4"], some 5, 2, true⟩ (fun _ => 4) ⟨5, none⟩ rfl).1
      rfl (by decide)
  · exact (miner_exhaustion_policy ⟨["4"], some 5, 2, false⟩ (fun _ => 9) ⟨5, none⟩ rfl).2
      rfl (fun _ => 9) ⟨5, none⟩ rfl

/-- C2: the miner's `triedSet` never contains a duplicate Candidate
(`Nodup` is preserved by every forward step, from the empty initial
set), and every Candidate returned as a guess was verified absent from
`triedSet` (the accepted loop draw is not a member) before being added
and before its digest is computed and returned. -/
theorem miner_triedSet_nodup_and_fresh_guess (st : MinerState) (rand : Nat → Nat)
    (syn : Synapse) (hnd : st.nonces.Nodup) :
    (Miner.forward st rand syn).1.nonces.Nodup ∧
    (∀ n, (resetIfNewBlock st syn.block_id).still_trying = true →
      drawLoop (resetIfNewBlock st syn.block_id).nonces (fun i => gen_nonce (rand i))
        (gen_nonce (rand 0)) 1
        ((resetIfNewBlock st syn.block_id).nonces.length
          + (resetIfNewBlock st syn.block_id).extra_attempts) = some n →
      n ∉ (resetIfNewBlock st syn.block_id).nonces ∧
      Miner.forward st rand syn =
        ({ resetIfNewBlock st syn.block_id with
            nonces := n :: (resetIfNewBlock st syn.block_id).nonces },
         { syn with hash := some (intOfHex (gen_hash n)) })) := by
  have hsnd : (resetIfNewBlock st syn.block_id).nonces.Nodup := by
    rcases resetIfNewBlock_nonces st syn.block_id with h | h <;> rw [h]
    · exact hnd
    · exact List.nodup_nil
  constructor
  · simp only [Miner.forward]
    split
    · exact hsnd
    · split
      · exact hsnd
      · rename_i nonce hdl
        exact List.Nodup.cons (drawLoop_some_not_mem _ _ _ _ _ _ hdl) hsnd
  · intro n htry hdl
    refine ⟨drawLoop_some_not_mem _ _ _ _ _ _ hdl, ?_⟩
    simp [Miner.forward, htry, hdl]

theorem miner_triedSet_nodup_and_fresh_guess_witness :
    (Miner.forward ⟨["3"], some 5, 10, true⟩ (fun _ => 7) ⟨5, none⟩).1.nonces.Nodup ∧
    ("7" ∉ (["3"] : List String) ∧
     Miner.forward ⟨["3"], some 5, 10, true⟩ (fun _ => 7) ⟨5, none⟩
       = (⟨["7", "3"], some 5, 10, true⟩, ⟨5, some (intOfHex (gen_hash "7"))⟩)) := by
  have h := miner_triedSet_nodup_and_fresh_guess ⟨["3"], some 5, 10, true⟩ (fun _ => 7)
    ⟨5, none⟩ (by decide)
  exact ⟨h.1, h.2 "7" (by decide) (by decide)⟩

/-- C3: whenever the observed round identifier differs from the
last-seen one, the miner resets its `triedSet` to empty and resumes
searching (`still_trying` becomes true), and the validator resets
`foundFlag` (`nonce_not_found` becomes true), samples a fresh secret
Candidate and recomputes the target digest; in both `forward` functions
this happens before any work on the new round begins (the step computes
exactly as it would from the already-reset state). -/
theorem round_change_resets_state (st : MinerState) (rand : Nat → Nat) (syn : Synapse)
    (vst : ValidatorState) (block : Int) (r : Nat)
    (hm : st.last_block_id ≠ some syn.block_id) (hv : vst.last_block ≠ some block) :
    resetIfNewBlock st syn.block_id =
      { st with last_block_id := some syn.block_id, still_trying := true, nonces := [] } ∧
    Miner.forward st rand syn =
      Miner.forward { st with last_block_id := some syn.block_id, still_trying := true,
                              nonces := [] } rand syn ∧
    commitIfNewBlock vst block r =
      { vst with nonce_not_found := true, nonce := intOfHex (gen_hash (gen_nonce r)),
                 last_block := some block } ∧
    Validator.forward vst block r =
      Validator.forward { vst with nonce_not_found := true,
                                   nonce := intOfHex (gen_hash (gen_nonce r)),
                                   last_block := some block } block r := by
  have h1 : resetIfNewBlock st syn.block_id =
      { st with last_block_id := some syn.block_id, still_trying := true, nonces := [] } := by
    unfold resetIfNewBlock
    rw [if_pos (fun h => hm h.symm)]
  have h1' : resetIfNewBlock
      { st with last_block_id := some syn.block_id, still_trying := true,
                nonces := ([] : List String) } syn.block_id =
      { st with last_block_id := some syn.block_id, still_trying := true, nonces := [] } :=
    resetIfNewBlock_of_same _ _ rfl
  have h2 : commitIfNewBlock vst block r =
      { vst with nonce_not_found := true, nonce := intOfHex (gen_hash (gen_nonce r)),
                 last_block := some block } := by
    unfold commitIfNewBlock
    simp [hv]
  have h2' : commitIfNewBlock
      { vst with nonce_not_found := true, nonce := intOfHex (gen_hash (gen_nonce r)),
                 last_block := some block } block r =
      { vst with nonce_not_found := true, nonce := intOfHex (gen_hash (gen_nonce r)),
                 last_block := some block } := by
    unfold commitIfNewBlock
    simp
  refine ⟨h1, ?_, h2, ?_⟩
  · simp only [Miner.forward, h1, h1']
  · simp only [Validator.forward, h2, h2']

theorem round_change_resets_state_witness :
    resetIfNewBlock ⟨["3"], some 4, 10, false⟩ 5 = ⟨[], some 5, 10, true⟩ ∧
    Miner.forward ⟨["3"], some 4, 10, false⟩ (fun _ => 7) ⟨5, none⟩
      = Miner.forward ⟨[], some 5, 10, true⟩ (fun _ => 7) ⟨5, none⟩ ∧
    commitIfNewBlock ⟨false, 99, some 4, 3⟩ 5 7
      = ⟨true, intOfHex (gen_hash (gen_nonce 7)), some 5, 3⟩ ∧
    Validator.forward ⟨false, 99, some 4, 3⟩ 5 7
      = Validator.forward ⟨true, intOfHex (gen_hash (gen_nonce 7)), some 5, 3⟩ 5 7 :=
  round_change_resets_state ⟨["3"], some 4, 10, false⟩ (fun _ => 7) ⟨5, none⟩
    ⟨false, 99, some 4, 3⟩ 5 7 (by decide) (by decide)

/-- C4: if `foundFlag` is already true for the current round identifier
(`nonce_not_found = false` and the block matches the last-seen one), the
validator performs no querying of participants that step: the forward
pass returns with the querying flag false and the state unchanged, so it
is an idempotent no-op until the round id changes. -/
theorem validator_found_noop (vst : ValidatorState) (block : Int) (r : Nat)
    (hfound : vst.nonce_not_found = false) (hblock : vst.last_block = some block) :
    Validator.forward vst block r = (vst, false) := by
  have hc : commitIfNewBlock vst block r = vst := by
    unfold commitIfNewBlock
    simp [hblock]
  simp [Validator.forward, hc, hfound]

theorem validator_found_noop_witness :
    Validator.forward ⟨false, 123, some 7, 5⟩ 7 3 = (⟨false, 123, some 7, 5⟩, false) :=
  validator_found_noop ⟨false, 123, some 7, 5⟩ 7 3 rfl rfl

/-- C5: the miner's submitted digest value and the validator's target
digest value are computed by the same encoding `int(gen_hash(c), 16)`,
which equals the big-endian integer interpretation of the 32-byte hash;
hence a miner whose loop accepts the validator's secret candidate
submits a hash field equal to the validator's target `nonce`. -/
theorem digest_encoding_agreement (c : String) :
    intOfHex (gen_hash c) = beBytesToNat (sha256 (strBytes c)) ∧
    (∀ (st : MinerState) (rand : Nat → Nat) (syn : Synapse)
       (vst : ValidatorState) (block : Int) (r : Nat),
      (resetIfNewBlock st syn.block_id).still_trying = true →
      drawLoop (resetIfNewBlock st syn.block_id).nonces (fun i => gen_nonce (rand i))
        (gen_nonce (rand 0)) 1
        ((resetIfNewBlock st syn.block_id).nonces.length
          + (resetIfNewBlock st syn.block_id).extra_attempts) = some c →
      gen_nonce r = c →
      vst.last_block ≠ some block →
      (Miner.forward st rand syn).2.hash = some ((commitIfNewBlock vst block r).nonce)) := by
  constructor
  · exact intOfHex_bytesToHex _ (sha256_mem_lt _)
  · intro st rand syn vst block r htry hdl hr hv
    have hcommit : (commitIfNewBlock vst block r).nonce = intOfHex (gen_hash (gen_nonce r)) := by
      unfold commitIfNewBlock
      rw [if_pos hv]
    simp [Miner.forward, htry, hdl, hcommit, hr]

theorem digest_encoding_agreement_witness :
    intOfHex (gen_hash "7") = beBytesToNat (sha256 (strBytes "7")) ∧
    (Miner.forward ⟨[], some 5, 10, true⟩ (fun _ => 7) ⟨5, none⟩).2.hash
      = some ((commitIfNewBlock ⟨true, 0, none, 0⟩ 5 7).nonce) := by
  have h := digest_encoding_agreement "7"
  exact ⟨h.1, h.2 ⟨[], some 5, 10, true⟩ (fun _ => 7) ⟨5, none⟩ ⟨true, 0, none, 0⟩ 5 7
    (by decide) (by decide) (by decide) (by decide)⟩

/-- C6: counterexample against "a round id older than the locally
tracked one is discarded silently without doing search work and without
modifying round state": with last-seen round 5, a tried set `["3"]` and
an inbound round id 4, the miner resets the tried set (to `["7"]` after
drawing 7), changing its round state and performing search work (the
returned synapse differs from the request). -/
theorem stale_round_reset_counterexample :
    (Miner.forward ⟨["3"], some 5, 10, true⟩ (fun _ => 7) ⟨4, none⟩).1.nonces = ["7"] ∧
    (Miner.forward ⟨["3"], some 5, 10, true⟩ (fun _ => 7) ⟨4, none⟩).1
      ≠ ⟨["3"], some 5, 10, true⟩ ∧
    (Miner.forward ⟨["3"], some 5, 10, true⟩ (fun _ => 7) ⟨4, none⟩).2 ≠ ⟨4, none⟩ := by
  refine ⟨by decide, by decide, by decide⟩

/-- C6 (amended): an inbound message whose round id differs from the
locally tracked one — older ones included — is not discarded: the miner
treats it as a round transition, resets `triedSet` to empty, resumes
searching, and performs a normal search step whose first draw is fresh
and answered with its digest; no error is reported to the caller (the
step returns a synapse normally). -/
theorem round_id_change_always_resets (st : MinerState) (rand : Nat → Nat) (syn : Synapse)
    (hdiff : st.last_block_id ≠ some syn.block_id) :
    Miner.forward st rand syn =
      ({ nonces := [gen_nonce (rand 0)], last_block_id := some syn.block_id,
         extra_attempts := st.extra_attempts, still_trying := true },
       { syn with hash := some (intOfHex (gen_hash (gen_nonce (rand 0)))) }) := by
  have hreset : resetIfNewBlock st syn.block_id =
      { st with last_block_id := some syn.block_id, still_trying := true, nonces := [] } := by
    unfold resetIfNewBlock
    rw [if_pos (fun h => hdiff h.symm)]
  have hdl : drawLoop ([] : List String) (fun i => gen_nonce (rand i)) (gen_nonce (rand 0)) 1
      st.extra_attempts = some (gen_nonce (rand 0)) :=
    drawLoop_fresh _ _ _ _ _ (List.not_mem_nil _)
  simp [Miner.forward, hreset, hdl]

theorem round_id_change_always_resets_witness :
    Miner.forward ⟨["3"], some 5, 10, true⟩ (fun _ => 7) ⟨4, none⟩
      = (⟨[gen_nonce 7], some 4, 10, true⟩,
         ⟨4, some (intOfHex (gen_hash (gen_nonce 7)))⟩) :=
  round_id_change_always_resets ⟨["3"], some 5, 10, true⟩ (fun _ => 7) ⟨4, none⟩ (by decide)

/-- C7: counterexample against "every value returned by `gen_nonce` lies
in the half-open domain `[0, 10)`, i.e. is one of the strings "0"
through "9"": Python's `random.randint(0, 10)` is inclusive at both
ends, so the legal draw 10 makes `gen_nonce` return "10", which is not
among those ten strings. -/
theorem gen_nonce_ten_counterexample :
    (10 : Nat) ≤ 10 ∧ gen_nonce 10 = "10" ∧
    gen_nonce 10 ∉ ["0", "1", "2", "3", "4", "5", "6", "7", "8", "9"] := by decide

/-- C7 (amended): every value returned by `gen_nonce` is the decimal
string of an integer drawn from the closed interval `[0, 10]`
(`random.randint(0, 10)` is inclusive at both ends), i.e. one of the
eleven strings "0" through "10". -/
theorem gen_nonce_closed_range (r : Nat) (hr : r ≤ 10) :
    gen_nonce r ∈ ["0", "1", "2", "3", "4", "5", "6", "7", "8", "9", "10"] :=
  (by decide :
    ∀ r : Nat, r ≤ 10 → gen_nonce r ∈ ["0", "1", "2", "3", "4", "5", "6", "7", "8", "9", "10"])
    r hr

theorem gen_nonce_closed_range_witness :
    gen_nonce 10 ∈ ["0", "1", "2", "3", "4", "5", "6", "7", "8", "9", "10"] :=
  gen_nonce_closed_range 10 (by decide)

/-- C8: evidence that the claim describes intent the code fails to meet:
for a caller whose hotkey is not among the registered hotkeys,
`Miner.blacklist` raises `ValueError` at `hotkeys.index(...)` (line 107)
before the membership check on line 110 can run, so the rejection
`(True, "Unrecognized hotkey")` is never returned without an exception;
in fact any non-exceptional return at all implies the hotkey was
registered. -/
theorem blacklist_unregistered_raises :
    Miner.blacklist ["keyA"] [true] ⟨false, false⟩ "keyB"
      = Except.error "ValueError: hotkey is not in list" ∧
    (∀ reason : String,
      Miner.blacklist ["keyA"] [true] ⟨false, false⟩ "keyB" ≠ Except.ok (true, reason)) ∧
    (∀ (hotkeys : List String) (permit : List Bool) (cfg : BlacklistConfig) (hk : String)
       (b : Bool) (reason : String),
      Miner.blacklist hotkeys permit cfg hk = Except.ok (b, reason) → hk ∈ hotkeys) := by
  refine ⟨rfl, ?_, ?_⟩
  · intro reason
    simp [Miner.blacklist, pyIndex]
  · intro hotkeys permit cfg hk b reason h
    by_contra hmem
    have hidx := pyIndex_eq_none_of_not_mem hotkeys hk hmem
    simp [Miner.blacklist, hidx] at h

/-- C9: `gen_hash` is deterministic — two calls with the same candidate
yield identical digests — and the digest equals the lowercase
hexadecimal rendering of the 32-byte SHA-256 hash of the candidate's
string form: a fixed-width 64-character string over the hex alphabet. -/
theorem gen_hash_deterministic_hex64 (c1 c2 : String) (heq : c1 = c2) :
    gen_hash c1 = gen_hash c2 ∧
    gen_hash c1 = bytesToHex (sha256 (strBytes c1)) ∧
    (sha256 (strBytes c1)).length = 32 ∧
    (gen_hash c1).length = 64 ∧
    ∀ d ∈ (gen_hash c1).data, d ∈ hexChars := by
  subst heq
  refine ⟨rfl, rfl, sha256_length _, ?_, ?_⟩
  · show (bytesToHex (sha256 (strBytes c1))).length = 64
    rw [bytesToHex_length, sha256_length]
  · exact mem_bytesToHex_hexChars _ (sha256_mem_lt _)

theorem gen_hash_deterministic_hex64_witness :
    gen_hash "7" = gen_hash "7" ∧
    gen_hash "7" = bytesToHex (sha256 (strBytes "7")) ∧
    (sha256 (strBytes "7")).length = 32 ∧
    (gen_hash "7").length = 64 ∧
    ∀ d ∈ (gen_hash "7").data, d ∈ hexChars :=
  gen_hash_deterministic_hex64 "7" "7" rfl

/-- C10: if a miner search step exits through the exhaustion branch
(`drawLoop` yields no fresh draw within the slack bound) while searching
the current round, the resulting state keeps `triedSet` exactly as at
entry — the duplicate that triggered exhaustion is never recorded — and
the returned synapse (its `hash` and `block_id` fields included) is the
request unmodified; the only state change is `still_trying` flipping to
false. -/
theorem exhaustion_frame_condition (st : MinerState) (rand : Nat → Nat) (syn : Synapse)
    (hblock : st.last_block_id = some syn.block_id)
    (htry : st.still_trying = true)
    (hnone : drawLoop st.nonces (fun i => gen_nonce (rand i)) (gen_nonce (rand 0)) 1
      (st.nonces.length + st.extra_attempts) = none) :
    Miner.forward st rand syn = ({ st with still_trying := false }, syn) := by
  have hreset := resetIfNewBlock_of_same st syn.block_id hblock
  simp [Miner.forward, hreset, htry, hnone]

theorem exhaustion_frame_condition_witness :
    Miner.forward ⟨["4"], some 5, 2, true⟩ (fun _ => 4) ⟨5, some 999⟩
      = (⟨["4"], some 5, 2, false⟩, ⟨5, some 999⟩) :=
  exhaustion_frame_condition ⟨["4"], some 5, 2, true⟩ (fun _ => 4) ⟨5, some 999⟩
    rfl rfl (by decide)
